import Mathlib

/-
Verification of the lifecycle execution engine of the e2e test framework.

The embedding follows the Go sources:
  * pkg/envconf/config.go   (Config, RandomName)
  * pkg/env (env.go)        (testEnv, action registration, getActionsByRole,
                             Test, Run, execFeature)

Conventions of the embedding:
  * `context.Context` is an opaque value of a type parameter `C`; Go code
    only threads it through hooks and steps, never inspects it.
  * Go errors are `Option String` (none = nil error).
  * Compiled regular expressions are abstract matchers `String → Bool`
    wrapped in `Option` (none = nil regex, i.e. no filter configured);
    `MatchString` is function application.  The claims under study depend
    only on the boolean match outcome, never on regex syntax.
  * `testing.T` interactions (`t.Run`, `t.Skipf`, `t.Fatalf`, `t.Log`) are
    modelled by their control flow: sub-tests run synchronously, `Skipf`
    aborts the enclosing closure, `Fatalf` aborts the whole `Test` call and
    is recorded as a fatal outcome carrying the formatted message, `t.Log`
    is recorded as a log event.
  * Execution is instrumented with a trace of `Event`s so that "hook h ran
    before step s" is an observable statement; the context/error components
    of every function mirror the source exactly and the events are emitted
    precisely at the corresponding call sites.
-/

namespace E2E

/-- Lifecycle level of a feature step (source: types.LevelSetup /
LevelAssess / LevelTeardown used by execFeature). -/
inductive Level
  | LevelSetup
  | LevelAssess
  | LevelTeardown
deriving DecidableEq, Repr

/-- Role of a registered environment action (source: roleSetup,
roleBeforeTest, roleBeforeFeature, roleAfterFeature, roleAfterTest,
roleFinish constants of package env). -/
inductive actionRole
  | roleSetup
  | roleBeforeTest
  | roleBeforeFeature
  | roleAfterFeature
  | roleAfterTest
  | roleFinish
deriving DecidableEq, Repr

/-- Environment configuration (source: envconf.Config).  The kubeconfig,
client, namespace and labels fields are carried for completeness but are
not consulted by any of the modelled engine operations; the two regex
filters are the fields execFeature reads. -/
structure Config where
  kubeconfig : String := ""
  ns : String := ""
  assessmentRegex : Option (String → Bool) := none
  featureRegex : Option (String → Bool) := none
  labels : List (String × String) := []

/-- A feature step (source: the Step values consumed by execFeature via
f.Steps(): a name, a level, and a func(ctx, t, cfg) context.Context).  The
`testing.T` argument is not modelled (step functions report failures
through it, outside the engine's contract). -/
structure Step (C : Type) where
  name : String
  level : Level
  fn : C → Config → C

/-- A feature (source: the types.Feature interface: Name() and Steps()). -/
structure Feature (C : Type) where
  name : String
  steps : List (Step C)

/-- Modelled from the spec: the feature builder of package features is not
among the provided sources.  Per spec §4.2, `New(name)` starts a builder
and `.Setup(fn)`, `.Assess(name, fn)`, `.Teardown(fn)` append a Step of
the corresponding level in declaration order; only Assess steps carry a
user-supplied name. -/
structure FeatureBuilder (C : Type) where
  name : String
  steps : List (Step C)

/-- Modelled from the spec: features.New starts an empty builder. -/
def features.New {C : Type} (name : String) : FeatureBuilder C :=
  { name := name, steps := [] }

/-- Modelled from the spec: append a Setup-level step. -/
def FeatureBuilder.Setup {C : Type} (b : FeatureBuilder C) (fn : C → Config → C) :
    FeatureBuilder C :=
  { b with steps := b.steps ++ [{ name := "", level := .LevelSetup, fn := fn }] }

/-- Modelled from the spec: append a named Assess-level step. -/
def FeatureBuilder.Assess {C : Type} (b : FeatureBuilder C) (name : String)
    (fn : C → Config → C) : FeatureBuilder C :=
  { b with steps := b.steps ++ [{ name := name, level := .LevelAssess, fn := fn }] }

/-- Modelled from the spec: append a Teardown-level step. -/
def FeatureBuilder.Teardown {C : Type} (b : FeatureBuilder C) (fn : C → Config → C) :
    FeatureBuilder C :=
  { b with steps := b.steps ++ [{ name := "", level := .LevelTeardown, fn := fn }] }

/-- Modelled from the spec: freeze the builder into an immutable Feature. -/
def FeatureBuilder.Feature {C : Type} (b : FeatureBuilder C) : E2E.Feature C :=
  { name := b.name, steps := b.steps }

/-- Modelled from the spec: features.GetStepsByLevel is not among the
provided sources.  Per spec §4.2, steps are retrievable filtered by level,
preserving original relative order within that level. -/
def GetStepsByLevel {C : Type} (steps : List (Step C)) (l : Level) : List (Step C) :=
  steps.filter (fun s => s.level == l)

/-- An environment hook function (source: types.EnvFunc, aliased Func in
package env: func(context.Context, *envconf.Config) (context.Context, error)). -/
abbrev Func (C : Type) := C → Config → C × Option String

/-- A registered action: an ordered list of hook functions tagged with a
role (source: the action struct of package env, as constructed by the
registration methods). -/
structure action (C : Type) where
  role : actionRole
  funcs : List (Func C)

/-- Observable execution events (instrumentation; not part of the source).
`hook r i` records invocation of the i-th hook function of role r within
one hook-running pass; `testsRun` records the m.Run() call; `stepRun` and
the skip events record execFeature's behaviour; `logged` records a log
call. -/
inductive Event
  | hook (role : actionRole) (idx : Nat)
  | testsRun
  | stepRun (lvl : Level) (name : String)
  | skipFeature (name : String)
  | skipAssess (name : String)
  | logged (msg : String)
deriving DecidableEq, Repr

/-- Modelled from the spec (action.run of package env is not among the
provided sources): run the hook functions of one action in order,
threading the context; on the first function returning a non-nil error,
stop and surface that error together with the context it returned.
Instrumented with one `hook` event per function actually invoked, numbered
from `i`. -/
def runFuncsTr {C : Type} (cfg : Config) (r : actionRole) (i : Nat)
    (fs : List (Func C)) (ctx : C) : C × Option String × List Event :=
  match fs with
  | [] => (ctx, none, [])
  | f :: rest =>
    let p := f ctx cfg
    match p.2 with
    | some err => (p.1, some err, [Event.hook r i])
    | none =>
      let rr := runFuncsTr cfg r (i + 1) rest p.1
      (rr.1, rr.2.1, Event.hook r i :: rr.2.2)

/-- The fail-fast hook loop shared by Run's setup pass and Test's hook
passes (source: the per-action loops of Run and Test: each action's run is
invoked with the threaded context; a non-nil error aborts the loop).
Events across actions are numbered consecutively starting at `i`. -/
def runActionsTr {C : Type} (cfg : Config) (i : Nat) (acts : List (action C))
    (ctx : C) : C × Option String × List Event :=
  match acts with
  | [] => (ctx, none, [])
  | a :: rest =>
    let r := runFuncsTr cfg a.role i a.funcs ctx
    match r.2.1 with
    | some err => (r.1, some err, r.2.2)
    | none =>
      let rr := runActionsTr cfg (i + a.funcs.length) rest r.1
      (rr.1, rr.2.1, r.2.2 ++ rr.2.2)

/-- The best-effort hook loop of Run's finish pass (source: Run lines
404-409: each finish action's run is invoked with the threaded context; a
non-nil error is logged and the loop continues with the next action). -/
def runFinishActionsTr {C : Type} (cfg : Config) (i : Nat)
    (acts : List (action C)) (ctx : C) : C × List Event :=
  match acts with
  | [] => (ctx, [])
  | a :: rest =>
    let r := runFuncsTr cfg a.role i a.funcs ctx
    let evs :=
      match r.2.1 with
      | some err => r.2.2 ++ [Event.logged err]
      | none => r.2.2
    let rr := runFinishActionsTr cfg (i + a.funcs.length) rest r.1
    (rr.1, evs ++ rr.2)

/-- Total number of hook functions across a list of actions. -/
def actionFuncCount {C : Type} (acts : List (action C)) : Nat :=
  (acts.map (fun a => a.funcs.length)).sum

/-- The test environment (source: the testEnv struct of package env). -/
structure testEnv (C : Type) where
  ctx : C
  cfg : Config
  actions : List (action C)

/-- Source: getActionsByRole filters the chronological action log by role,
preserving registration order (the source's nil-slice early return is
observationally the empty filter). -/
def testEnv.getActionsByRole {C : Type} (e : testEnv C) (r : actionRole) :
    List (action C) :=
  e.actions.filter (fun a => a.role == r)

/-- Source: getSetupActions. -/
def testEnv.getSetupActions {C : Type} (e : testEnv C) : List (action C) :=
  e.getActionsByRole .roleSetup

/-- Source: getBeforeTestActions. -/
def testEnv.getBeforeTestActions {C : Type} (e : testEnv C) : List (action C) :=
  e.getActionsByRole .roleBeforeTest

/-- Source: getBeforeFeatureActions. -/
def testEnv.getBeforeFeatureActions {C : Type} (e : testEnv C) : List (action C) :=
  e.getActionsByRole .roleBeforeFeature

/-- Source: getAfterFeatureActions. -/
def testEnv.getAfterFeatureActions {C : Type} (e : testEnv C) : List (action C) :=
  e.getActionsByRole .roleAfterFeature

/-- Source: getAfterTestActions. -/
def testEnv.getAfterTestActions {C : Type} (e : testEnv C) : List (action C) :=
  e.getActionsByRole .roleAfterTest

/-- Source: getFinishActions. -/
def testEnv.getFinishActions {C : Type} (e : testEnv C) : List (action C) :=
  e.getActionsByRole .roleFinish

/-- Source: Setup registration: zero functions is a no-op returning e,
otherwise one action tagged roleSetup is appended. -/
def testEnv.Setup {C : Type} (e : testEnv C) (funcs : List (Func C)) : testEnv C :=
  if funcs.length = 0 then e
  else { e with actions := e.actions ++ [{ role := .roleSetup, funcs := funcs }] }

/-- Source: BeforeEachTest registration. -/
def testEnv.BeforeEachTest {C : Type} (e : testEnv C) (funcs : List (Func C)) :
    testEnv C :=
  if funcs.length = 0 then e
  else { e with actions := e.actions ++ [{ role := .roleBeforeTest, funcs := funcs }] }

/-- Source: BeforeEachFeature registration. -/
def testEnv.BeforeEachFeature {C : Type} (e : testEnv C) (funcs : List (Func C)) :
    testEnv C :=
  if funcs.length = 0 then e
  else { e with actions := e.actions ++ [{ role := .roleBeforeFeature, funcs := funcs }] }

/-- Source: AfterEachFeature registration. -/
def testEnv.AfterEachFeature {C : Type} (e : testEnv C) (funcs : List (Func C)) :
    testEnv C :=
  if funcs.length = 0 then e
  else { e with actions := e.actions ++ [{ role := .roleAfterFeature, funcs := funcs }] }

/-- Source: AfterEachTest registration. -/
def testEnv.AfterEachTest {C : Type} (e : testEnv C) (funcs : List (Func C)) :
    testEnv C :=
  if funcs.length = 0 then e
  else { e with actions := e.actions ++ [{ role := .roleAfterTest, funcs := funcs }] }

/-- Source: Finish registration. -/
def testEnv.Finish {C : Type} (e : testEnv C) (funcs : List (Func C)) : testEnv C :=
  if funcs.length = 0 then e
  else { e with actions := e.actions ++ [{ role := .roleFinish, funcs := funcs }] }

/-- One registration request: which builder method is called and with which
hook functions. -/
structure Registration (C : Type) where
  role : actionRole
  funcs : List (Func C)

/-- Dispatch a registration request to the corresponding source method. -/
def applyRegistration {C : Type} (e : testEnv C) (g : Registration C) : testEnv C :=
  match g.role with
  | .roleSetup => e.Setup g.funcs
  | .roleBeforeTest => e.BeforeEachTest g.funcs
  | .roleBeforeFeature => e.BeforeEachFeature g.funcs
  | .roleAfterFeature => e.AfterEachFeature g.funcs
  | .roleAfterTest => e.AfterEachTest g.funcs
  | .roleFinish => e.Finish g.funcs

/-- Apply a sequence of registration requests in order. -/
def applyRegistrations {C : Type} (e : testEnv C) (gs : List (Registration C)) :
    testEnv C :=
  gs.foldl applyRegistration e

/-
Hex encoding and RandomName (source: envconf.RandomName, config.go lines
155-166).  Go strings are byte strings; the embedding identifies bytes
with `Char`s (all characters produced here are ASCII), so Go's `len` and
`[:n]` are `String.length` and take-n-characters.  The random source
`rand.Read` filling the n-byte buffer is an explicit byte stream argument
(each byte reduced mod 256, the byte domain).
-/

/-- One hexadecimal digit character, as in Go's encoding/hex digit table
"0123456789abcdef" (argument expected < 16). -/
def hexDigit (k : Nat) : Char :=
  if k < 10 then Char.ofNat (48 + k) else Char.ofNat (87 + k)

/-- Source: hex.EncodeToString: each byte becomes its high nibble digit
followed by its low nibble digit. -/
def hex.EncodeToString (bs : List Nat) : String :=
  ⟨bs.flatMap (fun b => [hexDigit (b / 16 % 16), hexDigit (b % 16)])⟩

/-- Source: envconf.RandomName.  `randBytes` is the random byte stream read
into the n-byte buffer p; everything else follows the source line by
line: a zero requested length falls back to 32, a prefix at least as long
as the (substituted) length is returned unmodified, and otherwise
prefix + "-" + hex(p) is truncated to n characters. -/
def RandomName (randBytes : Nat → Nat) (pfx : String) (n : Nat) : String :=
  let n := if n = 0 then 32 else n
  if pfx.length ≥ n then pfx
  else
    let p := (List.range n).map (fun k => randBytes k % 256)
    ⟨(pfx.data ++ '-' :: (hex.EncodeToString p).data).take n⟩

/-
The execution engine (source: Test, Run, execFeature of package env).
-/

/-- Source, execFeature line 458: the feature sub-test is skipped exactly
when a feature regex is configured and the feature name does not match. -/
def featureSkipped (cfg : Config) (name : String) : Bool :=
  match cfg.featureRegex with
  | some rx => !(rx name)
  | none => false

/-- Source, execFeature line 473: an assessment sub-sub-test is skipped
exactly when an assessment regex is configured and the step name does not
match. -/
def assessSkipped (cfg : Config) (name : String) : Bool :=
  match cfg.assessmentRegex with
  | some rx => !(rx name)
  | none => false

/-- Run the setup- or teardown-level steps of a feature in order, threading
the context (source: the setups and teardowns loops of execFeature). -/
def runStepsTr {C : Type} (cfg : Config) (steps : List (Step C)) (ctx : C) :
    C × List Event :=
  match steps with
  | [] => (ctx, [])
  | s :: rest =>
    let ctx' := s.fn ctx cfg
    let rr := runStepsTr cfg rest ctx'
    (rr.1, Event.stepRun s.level s.name :: rr.2)

/-- Run the assess-level steps of a feature: each opens its own named
sub-sub-test; a step whose name fails the configured assessment regex is
skipped (its Skipf aborts only that sub-sub-test, so the step function is
not invoked and the context is unchanged) and its siblings continue
(source: the assessments loop of execFeature). -/
def runAssessTr {C : Type} (cfg : Config) (steps : List (Step C)) (ctx : C) :
    C × List Event :=
  match steps with
  | [] => (ctx, [])
  | s :: rest =>
    if assessSkipped cfg s.name then
      let rr := runAssessTr cfg rest ctx
      (rr.1, Event.skipAssess s.name :: rr.2)
    else
      let ctx' := s.fn ctx cfg
      let rr := runAssessTr cfg rest ctx'
      (rr.1, Event.stepRun s.level s.name :: rr.2)

/-- Source: execFeature.  The feature's named sub-test runs synchronously:
if the feature name fails the configured feature regex the whole sub-test
is skipped before any step (Skipf aborts the closure, so the captured
context is returned unchanged); otherwise the Setup-level steps run in
declared order, then the Assess-level steps (individually filtered), then
the Teardown-level steps, and the threaded context is returned. -/
def testEnv.execFeatureTr {C : Type} (e : testEnv C) (ctx : C) (f : Feature C) :
    C × List Event :=
  if featureSkipped e.cfg f.name then
    (ctx, [Event.skipFeature f.name])
  else
    let setups := GetStepsByLevel f.steps .LevelSetup
    let r1 := runStepsTr e.cfg setups ctx
    let assessments := GetStepsByLevel f.steps .LevelAssess
    let r2 := runAssessTr e.cfg assessments r1.1
    let teardowns := GetStepsByLevel f.steps .LevelTeardown
    let r3 := runStepsTr e.cfg teardowns r2.1
    (r3.1, r1.2 ++ r2.2 ++ r3.2)

/-- Source, Test lines 332/343/352: the format-string prefix used by the
t.Fatalf calls of the BeforeEachTest loop AND (verbatim, a copy-paste) of
the BeforeEachFeature and AfterEachFeature loops. -/
def beforeEachTestFailure : String := "BeforeEachTest failure: "

/-- Source, Test line 362: the format-string prefix of the AfterEachTest
loop's t.Fatalf. -/
def afterEachTestFailure : String := "AfterEachTest failure: "

/-- The phase-naming prefix the spec expects for an AfterEachFeature hook
failure; it appears nowhere in the source. -/
def afterEachFeatureFailure : String := "AfterEachFeature failure: "

/-- Source, Test line 323: the message logged when no features are given. -/
def noFeaturesLog : String := "No test testFeatures provided, skipping test"

/-- Outcome of a Test call: either it returns normally or some hook's
error made it call t.Fatalf, aborting the rest of the test.  Both carry
the environment context at that moment (the source assigns e.ctx before
checking the error). -/
inductive TestOutcome (C : Type)
  | ok (ctx : C)
  | fatal (msg : String) (ctx : C)
deriving DecidableEq, Repr

/-- Source: the per-feature loop of Test together with the trailing
AfterEachTest loop: for each feature the BeforeEachFeature actions run
(fatal on error, message prefix "BeforeEachTest failure: " — the source's
own string), then execFeature, then the AfterEachFeature actions (fatal on
error, same copy-pasted message prefix); after the last feature the
AfterEachTest actions run (fatal on error, message prefix
"AfterEachTest failure: "). -/
def testFeaturesLoop {C : Type} (e : testEnv C) (feats : List (Feature C))
    (ctx : C) : TestOutcome C × List Event :=
  match feats with
  | [] =>
    let ra := runActionsTr e.cfg 0 e.getAfterTestActions ctx
    match ra.2.1 with
    | some err => (.fatal (afterEachTestFailure ++ err) ra.1, ra.2.2)
    | none => (.ok ra.1, ra.2.2)
  | f :: rest =>
    let rb := runActionsTr e.cfg 0 e.getBeforeFeatureActions ctx
    match rb.2.1 with
    | some err => (.fatal (beforeEachTestFailure ++ err) rb.1, rb.2.2)
    | none =>
      let rf := e.execFeatureTr rb.1 f
      let ra := runActionsTr e.cfg 0 e.getAfterFeatureActions rf.1
      match ra.2.1 with
      | some err =>
        (.fatal (beforeEachTestFailure ++ err) ra.1, rb.2.2 ++ rf.2 ++ ra.2.2)
      | none =>
        let rr := testFeaturesLoop e rest ra.1
        (rr.1, rb.2.2 ++ rf.2 ++ ra.2.2 ++ rr.2)

/-- Source: Test.  Zero features is a logged no-op; otherwise the
BeforeEachTest actions run (fatal on error), then the per-feature loop,
then the AfterEachTest actions.  The nil-context panic guard cannot fire
in the embedding (a context value is always present). -/
def testEnv.Test {C : Type} (e : testEnv C) (feats : List (Feature C)) :
    TestOutcome C × List Event :=
  if feats.isEmpty then
    (.ok e.ctx, [Event.logged noFeaturesLog])
  else
    let rb := runActionsTr e.cfg 0 e.getBeforeTestActions e.ctx
    match rb.2.1 with
    | some err => (.fatal (beforeEachTestFailure ++ err) rb.1, rb.2.2)
    | none =>
      let rr := testFeaturesLoop e feats rb.1
      (rr.1, rb.2.2 ++ rr.2)

/-- Outcome of a Run call: either a setup error made it call log.Fatal
(process exits with a failure status, the test runner never invoked) or it
returns the test runner's exit code. -/
inductive RunOutcome (C : Type)
  | fatalExit (err : String) (ctx : C)
  | exit (code : Int) (ctx : C)
deriving DecidableEq, Repr

/-- Source: Run.  The setup actions run fail-fast (log.Fatal on the first
error); then m.Run() executes the test suite and its exit code is
captured (modelled by the abstract `mExit`); then the finish actions run
best-effort; the captured exit code is returned unchanged. -/
def testEnv.Run {C : Type} (e : testEnv C) (mExit : Int) :
    RunOutcome C × List Event :=
  let rs := runActionsTr e.cfg 0 e.getSetupActions e.ctx
  match rs.2.1 with
  | some err => (.fatalExit err rs.1, rs.2.2)
  | none =>
    let rf := runFinishActionsTr e.cfg 0 e.getFinishActions rs.1
    (.exit mExit rf.1, rs.2.2 ++ Event.testsRun :: rf.2)

/-
Helper lemmas.
-/

theorem hex_EncodeToString_data_length (bs : List Nat) :
    (hex.EncodeToString bs).data.length = 2 * bs.length := by
  induction bs with
  | nil => rfl
  | cons b rest ih =>
    simp only [hex.EncodeToString] at *
    simp only [List.flatMap_cons, List.length_append, List.length_cons,
      List.length_nil, List.length_cons] at *
    omega

theorem applyRegistration_actions {C : Type} (e : testEnv C) (g : Registration C) :
    (applyRegistration e g).actions =
      if g.funcs.length = 0 then e.actions
      else e.actions ++ [{ role := g.role, funcs := g.funcs }] := by
  rcases g with ⟨r, fs⟩
  by_cases h : fs.length = 0 <;>
    cases r <;>
      simp [applyRegistration, testEnv.Setup, testEnv.BeforeEachTest,
        testEnv.BeforeEachFeature, testEnv.AfterEachFeature, testEnv.AfterEachTest,
        testEnv.Finish, h]

theorem runStepsTr_fst {C : Type} (cfg : Config) (steps : List (Step C)) (ctx : C) :
    (runStepsTr cfg steps ctx).1 = steps.foldl (fun c s => s.fn c cfg) ctx := by
  induction steps generalizing ctx with
  | nil => rfl
  | cons s rest ih => simp [runStepsTr, ih]

theorem runStepsTr_snd {C : Type} (cfg : Config) (steps : List (Step C)) (ctx : C) :
    (runStepsTr cfg steps ctx).2 =
      steps.map (fun s => Event.stepRun s.level s.name) := by
  induction steps generalizing ctx with
  | nil => rfl
  | cons s rest ih => simp [runStepsTr, ih]

theorem runAssessTr_snd {C : Type} (cfg : Config) (steps : List (Step C)) (ctx : C) :
    (runAssessTr cfg steps ctx).2 =
      steps.map (fun s =>
        if assessSkipped cfg s.name then Event.skipAssess s.name
        else Event.stepRun s.level s.name) := by
  induction steps generalizing ctx with
  | nil => rfl
  | cons s rest ih =>
    by_cases h : assessSkipped cfg s.name = true <;> simp [runAssessTr, h, ih]

theorem runAssessTr_fst_some {C : Type} (cfg : Config) (rx : String → Bool)
    (h : cfg.assessmentRegex = some rx) (steps : List (Step C)) (ctx : C) :
    (runAssessTr cfg steps ctx).1 =
      (steps.filter (fun s => rx s.name)).foldl (fun c s => s.fn c cfg) ctx := by
  induction steps generalizing ctx with
  | nil => rfl
  | cons s rest ih =>
    by_cases hb : rx s.name = true <;>
      simp [runAssessTr, assessSkipped, h, hb, ih]

theorem runAssessTr_snd_some {C : Type} (cfg : Config) (rx : String → Bool)
    (h : cfg.assessmentRegex = some rx) (steps : List (Step C)) (ctx : C) :
    (runAssessTr cfg steps ctx).2 =
      steps.map (fun s =>
        if rx s.name then Event.stepRun s.level s.name
        else Event.skipAssess s.name) := by
  induction steps generalizing ctx with
  | nil => rfl
  | cons s rest ih =>
    by_cases hb : rx s.name = true <;>
      simp [runAssessTr, assessSkipped, h, hb, ih]

/-
C9.
-/

/-- C9: RandomName(prefix, n) returns the string
prefix + "-" + hex(random bytes) truncated to exactly n characters, with
two documented exceptions: a requested length of 0 is replaced by the
default 32, and when the prefix alone is at least as long as the
(substituted) length the prefix is returned unmodified. -/
theorem RandomName_spec (g : Nat → Nat) (pfx : String) (n : Nat) :
    (pfx.length ≥ (if n = 0 then 32 else n) → RandomName g pfx n = pfx)
    ∧ (pfx.length < (if n = 0 then 32 else n) →
        RandomName g pfx n =
          ⟨(pfx.data ++ '-' ::
              (hex.EncodeToString ((List.range (if n = 0 then 32 else n)).map
                (fun k => g k % 256))).data).take (if n = 0 then 32 else n)⟩
        ∧ (RandomName g pfx n).length = (if n = 0 then 32 else n)) := by
  constructor
  · intro h
    simp only [RandomName]
    rw [if_pos h]
  · intro h
    have hneg : ¬ pfx.length ≥ (if n = 0 then 32 else n) := by omega
    constructor
    · simp only [RandomName]
      rw [if_neg hneg]
    · simp only [RandomName]
      rw [if_neg hneg]
      have hlen : pfx.length = pfx.data.length := rfl
      show (List.take _ _).length = _
      rw [List.length_take, List.length_append, List.length_cons,
        hex_EncodeToString_data_length, List.length_map, List.length_range]
      omega

/-- Evaluation witness for RandomName_spec: with the constant-zero byte
stream, RandomName "pod" 8 produces an 8-character name and, for a prefix
already 8 characters long, returns the prefix itself. -/
theorem RandomName_spec_witness :
    RandomName (fun _ => 0) "services" 8 = "services"
    ∧ (RandomName (fun _ => 0) "pod" 8).length = 8 := by
  refine ⟨(RandomName_spec (fun _ => 0) "services" 8).1 (by decide), ?_⟩
  have h := ((RandomName_spec (fun _ => 0) "pod" 8).2 (by decide)).2
  simpa using h

/-
C4.
-/

/-- C4: for every sequence of registrations under the six roles,
getActionsByRole(r) returns exactly the actions registered under role r,
in registration order (appended after whatever the environment already
held), and a registration call with zero functions is the identity on the
environment. -/
theorem getActionsByRole_spec (C : Type) :
    (∀ (e : testEnv C) (gs : List (Registration C)) (r : actionRole),
      (applyRegistrations e gs).getActionsByRole r =
        e.getActionsByRole r ++
          (gs.filter (fun g => g.role == r && !(g.funcs.length == 0))).map
            (fun g => ({ role := g.role, funcs := g.funcs } : action C)))
    ∧ (∀ (e : testEnv C) (r : actionRole),
        applyRegistration e { role := r, funcs := [] } = e) := by
  constructor
  · intro e gs r
    induction gs generalizing e with
    | nil => simp [applyRegistrations]
    | cons g rest ih =>
      have hstep : applyRegistrations e (g :: rest) =
          applyRegistrations (applyRegistration e g) rest := rfl
      rw [hstep, ih]
      have hacts : (applyRegistration e g).getActionsByRole r =
          e.getActionsByRole r ++
            (if g.role == r && !(g.funcs.length == 0)
             then [({ role := g.role, funcs := g.funcs } : action C)] else []) := by
        unfold testEnv.getActionsByRole
        rw [applyRegistration_actions]
        by_cases h0 : g.funcs.length = 0
        · simp [h0]
        · by_cases hr : g.role = r
          · simp [h0, hr, List.filter_append]
          · have : (g.role == r) = false := by simp [hr]
            simp [h0, hr, List.filter_append, this]
      rw [hacts]
      by_cases hc : (g.role == r && !(g.funcs.length == 0)) = true
      · simp [List.filter_cons, hc]
      · simp only [List.filter_cons, hc]
        simp at hc ⊢
  · intro e r
    cases r <;>
      simp [applyRegistration, testEnv.Setup, testEnv.BeforeEachTest,
        testEnv.BeforeEachFeature, testEnv.AfterEachFeature, testEnv.AfterEachTest,
        testEnv.Finish]

/-
C1.
-/

/-- C1: in an executed (non-skipped) feature sub-test, the trace groups
the declared steps by level — first every Setup-level step, then every
Assess-level step (individually run or skipped by the assessment filter),
then every Teardown-level step — and within each level List.filter keeps
the declared relative order, whatever the interleaving of levels at
declaration time was. -/
theorem execFeature_level_grouping (C : Type) (e : testEnv C) (ctx : C)
    (f : Feature C) (h : featureSkipped e.cfg f.name = false) :
    (e.execFeatureTr ctx f).2 =
      (f.steps.filter (fun s => s.level == .LevelSetup)).map
          (fun s => Event.stepRun s.level s.name)
        ++ (f.steps.filter (fun s => s.level == .LevelAssess)).map
            (fun s => if assessSkipped e.cfg s.name then Event.skipAssess s.name
                      else Event.stepRun s.level s.name)
        ++ (f.steps.filter (fun s => s.level == .LevelTeardown)).map
            (fun s => Event.stepRun s.level s.name) := by
  simp [testEnv.execFeatureTr, h, GetStepsByLevel, runStepsTr_snd, runAssessTr_snd]

/-- A feature declared in mixed level order (Teardown, Assess "a2", Setup,
Assess "a1"), built with the builder. -/
def c1Feature : Feature Nat :=
  (((((features.New "feat").Teardown (fun c _ => c + 1)).Assess "a2"
      (fun c _ => c * 2)).Setup (fun c _ => c + 10)).Assess "a1"
      (fun c _ => c * 3)).Feature

/-- An environment with no filters configured. -/
def c1Env : testEnv Nat := { ctx := 0, cfg := {}, actions := [] }

/-- Evaluation witness for execFeature_level_grouping: the mixed-order
declaration executes grouped Setup, then "a2", then "a1", then Teardown. -/
theorem execFeature_level_grouping_witness :
    (c1Env.execFeatureTr 3 c1Feature).2 =
      (c1Feature.steps.filter (fun s => s.level == .LevelSetup)).map
          (fun s => Event.stepRun s.level s.name)
        ++ (c1Feature.steps.filter (fun s => s.level == .LevelAssess)).map
            (fun s => if assessSkipped c1Env.cfg s.name then Event.skipAssess s.name
                      else Event.stepRun s.level s.name)
        ++ (c1Feature.steps.filter (fun s => s.level == .LevelTeardown)).map
            (fun s => Event.stepRun s.level s.name)
    ∧ (c1Env.execFeatureTr 3 c1Feature).2 =
        [Event.stepRun .LevelSetup "", Event.stepRun .LevelAssess "a2",
         Event.stepRun .LevelAssess "a1", Event.stepRun .LevelTeardown ""] :=
  ⟨execFeature_level_grouping Nat c1Env 3 c1Feature (by decide), by decide⟩

/-
C5.
-/

/-- C5: when a feature regex is configured and the feature's name does not
match it, the feature sub-test is skipped entirely: the returned context
is the incoming one (no step ran, no context mutation) and the only
recorded outcome is the skip of that feature. -/
theorem execFeature_regex_skip (C : Type) (e : testEnv C) (ctx : C)
    (f : Feature C) (rx : String → Bool)
    (h1 : e.cfg.featureRegex = some rx) (h2 : rx f.name = false) :
    e.execFeatureTr ctx f = (ctx, [Event.skipFeature f.name]) := by
  have hs : featureSkipped e.cfg f.name = true := by
    simp [featureSkipped, h1, h2]
  simp [testEnv.execFeatureTr, hs]

/-- An environment whose feature regex only matches the name "keep". -/
def c5Env : testEnv Nat :=
  { ctx := 0,
    cfg := { featureRegex := some (fun s => s == "keep") },
    actions := [] }

/-- A feature named "skip" whose only step would mutate the context. -/
def c5Feature : Feature Nat :=
  ((features.New "skip").Assess "a" (fun c _ => c + 100)).Feature

/-- Evaluation witness for execFeature_regex_skip: the feature named
"skip" is skipped under the regex matching only "keep", leaving the
context 7 untouched. -/
theorem execFeature_regex_skip_witness :
    c5Env.execFeatureTr 7 c5Feature = (7, [Event.skipFeature "skip"]) :=
  execFeature_regex_skip Nat c5Env 7 c5Feature (fun s => s == "keep") rfl (by decide)

/-
C6.
-/

/-- C6: when an assessment regex is configured (and the feature itself is
not skipped), the final context is obtained by folding the feature's
Setup steps, then ONLY the Assess steps whose names match the regex, then
the Teardown steps — a non-matching assessment contributes no context
mutation — and the trace marks each assessment individually as run or
skipped, in declared order, so matching siblings of a skipped assessment
still run. -/
theorem execFeature_assess_filtering (C : Type) (e : testEnv C) (ctx : C)
    (f : Feature C) (rx : String → Bool)
    (h1 : e.cfg.assessmentRegex = some rx)
    (h2 : featureSkipped e.cfg f.name = false) :
    (e.execFeatureTr ctx f).1 =
      (GetStepsByLevel f.steps .LevelTeardown).foldl (fun c s => s.fn c e.cfg)
        (((GetStepsByLevel f.steps .LevelAssess).filter (fun s => rx s.name)).foldl
          (fun c s => s.fn c e.cfg)
          ((GetStepsByLevel f.steps .LevelSetup).foldl (fun c s => s.fn c e.cfg) ctx))
    ∧ (e.execFeatureTr ctx f).2 =
        (GetStepsByLevel f.steps .LevelSetup).map
            (fun s => Event.stepRun s.level s.name)
          ++ (GetStepsByLevel f.steps .LevelAssess).map
              (fun s => if rx s.name then Event.stepRun s.level s.name
                        else Event.skipAssess s.name)
          ++ (GetStepsByLevel f.steps .LevelTeardown).map
              (fun s => Event.stepRun s.level s.name) := by
  constructor
  · simp [testEnv.execFeatureTr, h2, runStepsTr_fst, runAssessTr_fst_some e.cfg rx h1]
  · simp [testEnv.execFeatureTr, h2, runStepsTr_snd, runAssessTr_snd_some e.cfg rx h1]

/-- An environment whose assessment regex matches names beginning with
"add-" (the spec's example), modelled by the abstract matcher that accepts
exactly the two declared matching names. -/
def c6Env : testEnv Int :=
  { ctx := 0,
    cfg := { assessmentRegex := some (fun s => s == "add-one" || s == "add-two") },
    actions := [] }

/-- The spec's example feature: assessments add-one (+1), add-two (+2),
take-one (−1). -/
def c6Feature : Feature Int :=
  ((((features.New "feat").Assess "add-one" (fun c _ => c + 1)).Assess "add-two"
      (fun c _ => c + 2)).Assess "take-one" (fun c _ => c - 1)).Feature

theorem runFuncsTr_events {C : Type} (cfg : Config) (r : actionRole)
    (fs : List (Func C)) :
    ∀ (i : Nat) (ctx : C), ∀ ev ∈ (runFuncsTr cfg r i fs ctx).2.2,
      ∃ j, ev = Event.hook r j := by
  induction fs with
  | nil => intro i ctx ev hev; simp [runFuncsTr] at hev
  | cons f rest ih =>
    intro i ctx ev hev
    rcases hp : (f ctx cfg).2 with _ | err
    · simp only [runFuncsTr, hp] at hev
      rcases List.mem_cons.mp hev with h | h
      · exact ⟨i, h⟩
      · exact ih (i + 1) _ ev h
    · simp only [runFuncsTr, hp] at hev
      rcases List.mem_singleton.mp hev with h
      exact ⟨i, by rw [h]⟩

theorem runActionsTr_events {C : Type} (cfg : Config) (acts : List (action C))
    (r : actionRole) (hr : ∀ a ∈ acts, a.role = r) :
    ∀ (i : Nat) (ctx : C), ∀ ev ∈ (runActionsTr cfg i acts ctx).2.2,
      ∃ j, ev = Event.hook r j := by
  induction acts with
  | nil => intro i ctx ev hev; simp [runActionsTr] at hev
  | cons a rest ih =>
    intro i ctx ev hev
    have ha : a.role = r := hr a (List.mem_cons_self a rest)
    have hrest : ∀ b ∈ rest, b.role = r := fun b hb => hr b (List.mem_cons_of_mem a hb)
    rcases hq : (runFuncsTr cfg a.role i a.funcs ctx).2.1 with _ | err
    · simp only [runActionsTr, hq] at hev
      rcases List.mem_append.mp hev with h | h
      · rcases runFuncsTr_events cfg a.role a.funcs i ctx ev h with ⟨j, hj⟩
        exact ⟨j, by rw [hj, ha]⟩
      · exact ih hrest _ _ ev h
    · simp only [runActionsTr, hq] at hev
      rcases runFuncsTr_events cfg a.role a.funcs i ctx ev hev with ⟨j, hj⟩
      exact ⟨j, by rw [hj, ha]⟩

theorem runActionsTr_append_stop {C : Type} (cfg : Config) (pre : List (action C)) :
    ∀ (i : Nat) (post : List (action C)) (ctx : C) (err : String),
      (runActionsTr cfg i pre ctx).2.1 = some err →
      runActionsTr cfg i (pre ++ post) ctx = runActionsTr cfg i pre ctx := by
  induction pre with
  | nil => intro i post ctx err h; simp [runActionsTr] at h
  | cons a rest ih =>
    intro i post ctx err h
    rcases hq : (runFuncsTr cfg a.role i a.funcs ctx).2.1 with _ | e2
    · simp only [runActionsTr, hq] at h
      simp only [List.cons_append, runActionsTr, hq, List.append_eq]
      rw [ih _ post _ err h]
    · simp only [List.cons_append, runActionsTr, hq]

theorem runFinishActionsTr_append {C : Type} (cfg : Config)
    (pre : List (action C)) :
    ∀ (i : Nat) (post : List (action C)) (ctx : C),
      runFinishActionsTr cfg i (pre ++ post) ctx =
        ((runFinishActionsTr cfg (i + actionFuncCount pre) post
            (runFinishActionsTr cfg i pre ctx).1).1,
          (runFinishActionsTr cfg i pre ctx).2
            ++ (runFinishActionsTr cfg (i + actionFuncCount pre) post
                 (runFinishActionsTr cfg i pre ctx).1).2) := by
  induction pre with
  | nil => intro i post ctx; simp [runFinishActionsTr, actionFuncCount]
  | cons a rest ih =>
    intro i post ctx
    simp only [List.cons_append, runFinishActionsTr, List.append_eq]
    rw [ih]
    simp [actionFuncCount, Nat.add_assoc]

theorem mem_getActionsByRole {C : Type} (e : testEnv C) (r : actionRole)
    (a : action C) (h : a ∈ e.getActionsByRole r) : a.role = r := by
  simp only [testEnv.getActionsByRole, List.mem_filter, beq_iff_eq] at h
  exact h.2

/-
C2.
-/

/-- C2: when running the registered Setup actions fails, Run exits
fatally: the outcome is the fatal-exit path carrying the first setup
error, the recorded trace is exactly the setup hooks that ran up to and
including the failing one (every event is a roleSetup hook and the test
runner never executed), and — the final conjunct — appending further
actions after a failing prefix changes nothing, i.e. no remaining Setup
action runs after the first failure. -/
theorem run_setup_failure (C : Type) :
    (∀ (e : testEnv C) (mExit : Int) (err : String),
      (runActionsTr e.cfg 0 e.getSetupActions e.ctx).2.1 = some err →
        e.Run mExit =
          (.fatalExit err (runActionsTr e.cfg 0 e.getSetupActions e.ctx).1,
           (runActionsTr e.cfg 0 e.getSetupActions e.ctx).2.2)
        ∧ Event.testsRun ∉ (e.Run mExit).2
        ∧ (∀ ev ∈ (e.Run mExit).2, ∃ j, ev = Event.hook .roleSetup j))
    ∧ (∀ (cfg : Config) (i : Nat) (pre post : List (action C)) (ctx : C)
        (err : String),
        (runActionsTr cfg i pre ctx).2.1 = some err →
          runActionsTr cfg i (pre ++ post) ctx = runActionsTr cfg i pre ctx) := by
  constructor
  · intro e mExit err h
    have hrun : e.Run mExit =
        (.fatalExit err (runActionsTr e.cfg 0 e.getSetupActions e.ctx).1,
         (runActionsTr e.cfg 0 e.getSetupActions e.ctx).2.2) := by
      simp only [testEnv.Run, h]
    have hroles : ∀ a ∈ e.getSetupActions, a.role = .roleSetup :=
      fun a ha => mem_getActionsByRole e .roleSetup a ha
    have hev : ∀ ev ∈ (e.Run mExit).2, ∃ j, ev = Event.hook .roleSetup j := by
      rw [hrun]
      exact fun ev hmem =>
        runActionsTr_events e.cfg e.getSetupActions .roleSetup hroles 0 e.ctx ev hmem
    refine ⟨hrun, ?_, hev⟩
    intro hmem
    rcases hev _ hmem with ⟨j, hj⟩
    simp at hj
  · intro cfg i pre post ctx err h
    exact runActionsTr_append_stop cfg pre i post ctx err h

/-- A setup-failure environment: a succeeding setup action, then a
failing one, then a further setup action and a finish action that must
never run. -/
def c2Env : testEnv Nat :=
  { ctx := 0, cfg := {},
    actions := [⟨.roleSetup, [fun c _ => (c + 1, none)]⟩,
                ⟨.roleSetup, [fun c _ => (c, some "setup exploded")]⟩,
                ⟨.roleSetup, [fun c _ => (c + 100, none)]⟩,
                ⟨.roleFinish, [fun c _ => (c + 7, none)]⟩] }

/-- Evaluation witness for run_setup_failure: on c2Env the fatal exit
carries the second setup action's error, only the two invoked setup hooks
appear in the trace, and m.Run is never reached. -/
theorem run_setup_failure_witness :
    (runActionsTr c2Env.cfg 0 c2Env.getSetupActions c2Env.ctx).2.1 =
      some "setup exploded"
    ∧ (c2Env.Run 5 =
        (.fatalExit "setup exploded"
           (runActionsTr c2Env.cfg 0 c2Env.getSetupActions c2Env.ctx).1,
         (runActionsTr c2Env.cfg 0 c2Env.getSetupActions c2Env.ctx).2.2)
       ∧ Event.testsRun ∉ (c2Env.Run 5).2
       ∧ (∀ ev ∈ (c2Env.Run 5).2, ∃ j, ev = Event.hook .roleSetup j))
    ∧ (c2Env.Run 5).2 = [Event.hook .roleSetup 0, Event.hook .roleSetup 1] :=
  ⟨by decide, (run_setup_failure Nat).1 c2Env 5 "setup exploded" (by decide),
   by decide⟩

/-
C3.
-/

/-- C3: when the Setup pass succeeds, Run invokes the test runner and
returns its exit code unchanged, with every Finish action running after
it on the threaded context; the second conjunct shows the finish pass
never aborts (running a concatenation always continues into the suffix,
whatever happened in the prefix), and the third that a failing finish
action merely logs its error after the hooks it did run, still handing
its context to the next action. -/
theorem run_finish_best_effort (C : Type) :
    (∀ (e : testEnv C) (mExit : Int),
      (runActionsTr e.cfg 0 e.getSetupActions e.ctx).2.1 = none →
        e.Run mExit =
          (.exit mExit (runFinishActionsTr e.cfg 0 e.getFinishActions
              (runActionsTr e.cfg 0 e.getSetupActions e.ctx).1).1,
            (runActionsTr e.cfg 0 e.getSetupActions e.ctx).2.2
              ++ Event.testsRun :: (runFinishActionsTr e.cfg 0 e.getFinishActions
                   (runActionsTr e.cfg 0 e.getSetupActions e.ctx).1).2))
    ∧ (∀ (cfg : Config) (i : Nat) (pre post : List (action C)) (ctx : C),
        runFinishActionsTr cfg i (pre ++ post) ctx =
          ((runFinishActionsTr cfg (i + actionFuncCount pre) post
              (runFinishActionsTr cfg i pre ctx).1).1,
            (runFinishActionsTr cfg i pre ctx).2
              ++ (runFinishActionsTr cfg (i + actionFuncCount pre) post
                   (runFinishActionsTr cfg i pre ctx).1).2))
    ∧ (∀ (cfg : Config) (i : Nat) (a : action C) (ctx : C) (err : String),
        (runFuncsTr cfg a.role i a.funcs ctx).2.1 = some err →
          runFinishActionsTr cfg i [a] ctx =
            ((runFuncsTr cfg a.role i a.funcs ctx).1,
              (runFuncsTr cfg a.role i a.funcs ctx).2.2 ++ [Event.logged err])) := by
  refine ⟨?_, ?_, ?_⟩
  · intro e mExit h
    simp only [testEnv.Run, h]
  · intro cfg i pre post ctx
    exact runFinishActionsTr_append cfg pre i post ctx
  · intro cfg i a ctx err h
    simp [runFinishActionsTr, h]

/-- A finish-failure environment: the first finish action fails after
mutating the context, the second must still run on the threaded value. -/
def c3Env : testEnv Nat :=
  { ctx := 0, cfg := {},
    actions := [⟨.roleFinish, [fun c _ => (c + 1, some "finish exploded")]⟩,
                ⟨.roleFinish, [fun c _ => (c + 10, none)]⟩] }

/-- Evaluation witness for run_finish_best_effort: with no setup actions,
Run returns exit code 3 unchanged; the failing first finish action is
logged and the second still runs on the context it produced (0 → 1 →
11). -/
theorem run_finish_best_effort_witness :
    (runActionsTr c3Env.cfg 0 c3Env.getSetupActions c3Env.ctx).2.1 = none
    ∧ c3Env.Run 3 =
        (.exit 3 (runFinishActionsTr c3Env.cfg 0 c3Env.getFinishActions
            (runActionsTr c3Env.cfg 0 c3Env.getSetupActions c3Env.ctx).1).1,
          (runActionsTr c3Env.cfg 0 c3Env.getSetupActions c3Env.ctx).2.2
            ++ Event.testsRun :: (runFinishActionsTr c3Env.cfg 0 c3Env.getFinishActions
                 (runActionsTr c3Env.cfg 0 c3Env.getSetupActions c3Env.ctx).1).2)
    ∧ c3Env.Run 3 =
        (.exit 3 11,
         [Event.testsRun, Event.hook .roleFinish 0, Event.logged "finish exploded",
          Event.hook .roleFinish 1]) :=
  ⟨by decide, (run_finish_best_effort Nat).1 c3Env 3 (by decide), by decide⟩

/-- Evaluation witness for execFeature_assess_filtering: starting from 42,
only add-one and add-two run, yielding 45, and take-one is recorded as
individually skipped between its executed siblings. -/
theorem execFeature_assess_filtering_witness :
    (c6Env.execFeatureTr 42 c6Feature).1 = 45
    ∧ (c6Env.execFeatureTr 42 c6Feature).2 =
        [Event.stepRun .LevelAssess "add-one", Event.stepRun .LevelAssess "add-two",
         Event.skipAssess "take-one"] := by
  have h := execFeature_assess_filtering Int c6Env 42 c6Feature
    (fun s => s == "add-one" || s == "add-two") rfl (by decide)
  exact ⟨by rw [h.1]; decide, by rw [h.2]; decide⟩

/-
C7.
-/

/-- An environment whose only action is an AfterEachFeature hook that
fails with the error "hook failed". -/
def c7Env : testEnv Nat :=
  { ctx := 0, cfg := {},
    actions := [⟨.roleAfterFeature, [fun c _ => (c, some "hook failed")]⟩] }

/-- A trivial feature with no steps. -/
def c7Feature : Feature Nat := { name := "feat", steps := [] }

/-- C7 (evidence of the code slip): on c7Env the only hook that runs — and
fails — is the AfterEachFeature hook (the trace records exactly that
invocation), the failure is fatal as claimed, but the t.Fatalf message uses
the copy-pasted "BeforeEachTest failure: " prefix of Test's source
(lines 343 and 352) instead of one naming the AfterEachFeature phase. -/
theorem afterEachFeature_failure_misreported :
    (c7Env.Test [c7Feature]).1 =
      .fatal (beforeEachTestFailure ++ "hook failed") 0
    ∧ (c7Env.Test [c7Feature]).2 = [Event.hook .roleAfterFeature 0]
    ∧ beforeEachTestFailure ++ "hook failed" ≠
        afterEachFeatureFailure ++ "hook failed" := by
  refine ⟨by decide, by decide, by decide⟩

/-
C8.
-/

/-- C8: calling Test with zero features is a logged no-op: the outcome is
normal with the environment's context unchanged and the only recorded
event is the log message — no hook and no step runs. -/
theorem test_no_features (C : Type) (e : testEnv C) :
    e.Test [] = (.ok e.ctx, [Event.logged noFeaturesLog]) := rfl

/-
C10.
-/

theorem runFuncsTr_ok {C : Type} (cfg : Config) (r : actionRole)
    (fs : List (Func C)) (hok : ∀ g ∈ fs, ∀ c, (g c cfg).2 = none) :
    ∀ (i : Nat) (ctx : C), (runFuncsTr cfg r i fs ctx).2.1 = none := by
  induction fs with
  | nil => intro i ctx; rfl
  | cons f rest ih =>
    intro i ctx
    have h1 := hok f (List.mem_cons_self f rest) ctx
    simp only [runFuncsTr, h1]
    exact ih (fun g hg c => hok g (List.mem_cons_of_mem f hg) c) (i + 1) _

theorem runActionsTr_ok {C : Type} (cfg : Config) (acts : List (action C))
    (hok : ∀ a ∈ acts, ∀ g ∈ a.funcs, ∀ c, (g c cfg).2 = none) :
    ∀ (i : Nat) (ctx : C), (runActionsTr cfg i acts ctx).2.1 = none := by
  induction acts with
  | nil => intro i ctx; rfl
  | cons a rest ih =>
    intro i ctx
    have h1 := runFuncsTr_ok cfg a.role a.funcs
      (fun g hg c => hok a (List.mem_cons_self a rest) g hg c) i ctx
    simp only [runActionsTr, h1]
    exact ih (fun b hb => hok b (List.mem_cons_of_mem a hb)) _ _

/-- The context after running the hooks of one role on a context (the
first component of the corresponding fail-fast pass). -/
def hookCtx {C : Type} (e : testEnv C) (r : actionRole) (c : C) : C :=
  (runActionsTr e.cfg 0 (e.getActionsByRole r) c).1

/-- The trace of running the hooks of one role on a context. -/
def hookTr {C : Type} (e : testEnv C) (r : actionRole) (c : C) : List Event :=
  (runActionsTr e.cfg 0 (e.getActionsByRole r) c).2.2

/-- The context threaded through the per-feature loop when no hook fails:
each feature is entered through the BeforeEachFeature hooks, executed, and
left through the AfterEachFeature hooks. -/
def bracketCtx {C : Type} (e : testEnv C) : List (Feature C) → C → C
  | [], c => c
  | f :: rest, c =>
    bracketCtx e rest
      (hookCtx e .roleAfterFeature
        (e.execFeatureTr (hookCtx e .roleBeforeFeature c) f).1)

/-- The trace of the per-feature loop when no hook fails: for every
feature, BeforeEachFeature hook events, then the feature's own events,
then AfterEachFeature hook events. -/
def bracketTr {C : Type} (e : testEnv C) : List (Feature C) → C → List Event
  | [], _ => []
  | f :: rest, c =>
    hookTr e .roleBeforeFeature c
      ++ (e.execFeatureTr (hookCtx e .roleBeforeFeature c) f).2
      ++ hookTr e .roleAfterFeature
          (e.execFeatureTr (hookCtx e .roleBeforeFeature c) f).1
      ++ bracketTr e rest
          (hookCtx e .roleAfterFeature
            (e.execFeatureTr (hookCtx e .roleBeforeFeature c) f).1)

theorem testFeaturesLoop_ok {C : Type} (e : testEnv C)
    (hok : ∀ a ∈ e.actions, ∀ g ∈ a.funcs, ∀ c, (g c e.cfg).2 = none) :
    ∀ (feats : List (Feature C)) (ctx : C),
      testFeaturesLoop e feats ctx =
        (.ok (hookCtx e .roleAfterTest (bracketCtx e feats ctx)),
         bracketTr e feats ctx
           ++ hookTr e .roleAfterTest (bracketCtx e feats ctx)) := by
  have hsub : ∀ (r : actionRole), ∀ a ∈ e.getActionsByRole r, ∀ g ∈ a.funcs,
      ∀ c, (g c e.cfg).2 = none := by
    intro r a ha
    have : a ∈ e.actions := List.mem_of_mem_filter ha
    exact hok a this
  intro feats
  induction feats with
  | nil =>
    intro ctx
    have hA := runActionsTr_ok e.cfg (e.getActionsByRole .roleAfterTest)
      (hsub .roleAfterTest) 0 ctx
    simp only [testFeaturesLoop, testEnv.getAfterTestActions, hA]
    simp [bracketCtx, bracketTr, hookCtx, hookTr]
  | cons f rest ih =>
    intro ctx
    have hBF := runActionsTr_ok e.cfg (e.getActionsByRole .roleBeforeFeature)
      (hsub .roleBeforeFeature)
    have hAF := runActionsTr_ok e.cfg (e.getActionsByRole .roleAfterFeature)
      (hsub .roleAfterFeature)
    simp only [testFeaturesLoop, testEnv.getBeforeFeatureActions,
      testEnv.getAfterFeatureActions, hBF, hAF]
    rw [ih]
    simp [bracketCtx, bracketTr, hookCtx, hookTr, List.append_assoc]

/-- C10: when no hook fails, Test brackets every supplied feature with the
BeforeEachFeature hooks before its sub-test and the AfterEachFeature hooks
after it, threading the hooks' context mutations — and (second conjunct)
when the feature's name fails the feature regex, the bracketing hooks and
their context mutations still happen: only the skip event stands where the
feature's steps would be. -/
theorem hooks_bracket_features (C : Type) :
    (∀ (e : testEnv C) (feats : List (Feature C)),
      feats ≠ [] →
      (∀ a ∈ e.actions, ∀ g ∈ a.funcs, ∀ c, (g c e.cfg).2 = none) →
      e.Test feats =
        (.ok (hookCtx e .roleAfterTest
            (bracketCtx e feats (hookCtx e .roleBeforeTest e.ctx))),
         hookTr e .roleBeforeTest e.ctx
           ++ bracketTr e feats (hookCtx e .roleBeforeTest e.ctx)
           ++ hookTr e .roleAfterTest
               (bracketCtx e feats (hookCtx e .roleBeforeTest e.ctx))))
    ∧ (∀ (e : testEnv C) (f : Feature C) (rx : String → Bool) (c : C),
        e.cfg.featureRegex = some rx → rx f.name = false →
        bracketTr e [f] c =
          hookTr e .roleBeforeFeature c
            ++ Event.skipFeature f.name ::
                hookTr e .roleAfterFeature (hookCtx e .roleBeforeFeature c)
        ∧ bracketCtx e [f] c =
            hookCtx e .roleAfterFeature (hookCtx e .roleBeforeFeature c)) := by
  constructor
  · intro e feats hne hok
    have hsub : ∀ (r : actionRole), ∀ a ∈ e.getActionsByRole r, ∀ g ∈ a.funcs,
        ∀ c, (g c e.cfg).2 = none := by
      intro r a ha
      exact hok a (List.mem_of_mem_filter ha)
    have hempty : feats.isEmpty = false := by
      cases feats with
      | nil => exact absurd rfl hne
      | cons f rest => rfl
    have hBT := runActionsTr_ok e.cfg (e.getActionsByRole .roleBeforeTest)
      (hsub .roleBeforeTest)
    simp only [testEnv.Test, hempty, Bool.false_eq_true, if_false,
      testEnv.getBeforeTestActions, hBT]
    rw [testFeaturesLoop_ok e hok]
    simp [hookCtx, hookTr, List.append_assoc]
  · intro e f rx c h1 h2
    have hs : featureSkipped e.cfg f.name = true := by
      simp [featureSkipped, h1, h2]
    constructor
    · simp [bracketTr, testEnv.execFeatureTr, hs]
    · simp [bracketCtx, testEnv.execFeatureTr, hs]

/-- An environment with a feature regex matching only "keep" and hooks
+20 before and +5 after each feature. -/
def c10Env : testEnv Nat :=
  { ctx := 0,
    cfg := { featureRegex := some (fun s => s == "keep") },
    actions := [⟨.roleBeforeFeature, [fun c _ => (c + 20, none)]⟩,
                ⟨.roleAfterFeature, [fun c _ => (c + 5, none)]⟩] }

/-- A feature named "skip" whose step would add 100 (it must not run). -/
def c10Feature : Feature Nat :=
  ((features.New "skip").Assess "a" (fun c _ => c + 100)).Feature

/-- Evaluation witness for hooks_bracket_features: around the skipped
feature "skip" the two bracketing hooks still run and mutate the context
(0 → 20 → 25); the step's +100 never happens. -/
theorem hooks_bracket_features_witness :
    c10Env.Test [c10Feature] =
      (.ok (hookCtx c10Env .roleAfterTest
          (bracketCtx c10Env [c10Feature] (hookCtx c10Env .roleBeforeTest c10Env.ctx))),
       hookTr c10Env .roleBeforeTest c10Env.ctx
         ++ bracketTr c10Env [c10Feature] (hookCtx c10Env .roleBeforeTest c10Env.ctx)
         ++ hookTr c10Env .roleAfterTest
             (bracketCtx c10Env [c10Feature]
               (hookCtx c10Env .roleBeforeTest c10Env.ctx)))
    ∧ c10Env.Test [c10Feature] =
        (.ok 25,
         [Event.hook .roleBeforeFeature 0, Event.skipFeature "skip",
          Event.hook .roleAfterFeature 0]) := by
  refine ⟨(hooks_bracket_features Nat).1 c10Env [c10Feature]
    (List.cons_ne_nil c10Feature []) ?_, by decide⟩
  intro a ha g hg c
  simp only [c10Env, List.mem_cons, List.not_mem_nil, or_false] at ha
  rcases ha with rfl | rfl <;>
    · simp only [List.mem_cons, List.not_mem_nil, or_false] at hg
      subst hg
      rfl

end E2E
